import Mathlib

/-!
Verification development for the social-media montage backend
(`pipeline.py` and `main.py`).

The pipeline layer (`pipeline.py`) is embedded as pure functions over
rational-number clip metadata; the external capabilities (CLIP embedder,
moviepy decode) are modelled as oracles carried in the environment.
The orchestrator layer (`main.py`, `run_build_pipeline`) is embedded as a
function from an environment describing the external world (catalog rows,
which storage/DB calls fail) and the pre-state of the module globals to a
post-state plus a trace of the externally visible Catalog/Storage writes.
-/

namespace Portal

/-! ### Pipeline constants (`pipeline.py` module level) -/

def INSTAGRAM_WIDTH : ℚ := 1080

def INSTAGRAM_HEIGHT : ℚ := 1920

def MAX_FRAMES_PER_VIDEO : Nat := 5

def MIN_CLIP_DURATION : ℚ := mkRat 1 2

/-! ### String helpers mirroring the Python string operations used -/

/-- Python `s.lower()` on the character data. -/
def pyLower (s : String) : List Char := s.data.map Char.toLower

/-- Python `s.endswith(suffix)` for a lowered character list `s`. -/
def pyEndsWith (s : List Char) (suffix : String) : Bool :=
  suffix.data.isSuffixOf s

/-- `p.lower().endswith(exts)` with a tuple of suffixes (Python tuple form). -/
def hasExt (exts : List String) (p : String) : Bool :=
  exts.any (fun e => pyEndsWith (pyLower p) e)

def video_exts : List String := [".mp4", ".mov", ".m4v", ".avi", ".mkv"]

def image_exts : List String := [".jpg", ".jpeg", ".png", ".webp"]

/-- Python `os.path.basename`: the part of the path after the last slash. -/
def basename (p : String) : String :=
  ⟨p.data.foldl (fun acc c => if c = '/' then [] else acc ++ [c]) []⟩

/-! ### Media metadata and the embedding oracle -/

/-- A feature vector (the CLIP embedding averaged over sampled frames). -/
abbrev Vec := List ℚ

/-- Metadata of a downloaded local media file.  `emb` is the oracle for the
external decode + CLIP-embedding capability: `some v` is the averaged
per-frame vector, `none` models a decode/embedding exception (caught in
`_video_embedding`'s `try`/`except` and turned into `None`). -/
structure MediaFile where
  duration : ℚ
  w : ℚ
  h : ℚ
  emb : Option Vec
deriving DecidableEq

/-- `_video_embedding`: returns `None` when the clip's duration is below
`MIN_CLIP_DURATION`; otherwise the frame-sampled averaged embedding, with
any decode/embedding exception (folded into the `emb` oracle) giving
`None` as well. -/
def video_embedding (f : MediaFile) : Option Vec :=
  if f.duration < MIN_CLIP_DURATION then none else f.emb

/-! ### The greedy similarity sequencer (`build_montage_for_paths`, ordering part) -/

/-- One entry of the `remaining` list: a video path together with its
(non-`None`) embedding. -/
structure VidEntry where
  path : String
  emb : Vec
deriving DecidableEq

instance : Inhabited VidEntry := ⟨⟨"", []⟩⟩

/-- Maximum of a list of rationals (0 for the empty list; only used on
non-empty lists). -/
def listMax : List ℚ → ℚ
  | [] => 0
  | [x] => x
  | x :: y :: xs => max x (listMax (y :: xs))

/-- `torch.argmax` over a list of similarity scores: the index of the first
occurrence of the maximum (PyTorch returns the first maximal index). -/
def argmaxIdx : List ℚ → Nat
  | [] => 0
  | [_] => 0
  | x :: y :: xs => if x < listMax (y :: xs) then argmaxIdx (y :: xs) + 1 else 0

/-- The list `sims` of one loop iteration: cosine similarity of the current
entry's embedding against each remaining entry, in list order.  The cosine
similarity itself is computed by the external `torch.cosine_similarity`;
the development is parametric in that similarity function `sim`. -/
def simsOf (sim : Vec → Vec → ℚ) (cur : Vec) (rem : List VidEntry) : List ℚ :=
  rem.map (fun r => sim cur r.emb)

/-- The `while remaining:` loop of `build_montage_for_paths`, with an
explicit iteration count: each iteration `pop`s exactly one entry, so the
loop runs exactly `remaining.length` times. -/
def greedyLoopFuel (sim : Vec → Vec → ℚ) :
    Nat → VidEntry → List VidEntry → List VidEntry
  | 0, _, _ => []
  | _ + 1, _, [] => []
  | fuel + 1, cur, a :: rest =>
    (a :: rest).getD (argmaxIdx (simsOf sim cur.emb (a :: rest))) a ::
      greedyLoopFuel sim fuel
        ((a :: rest).getD (argmaxIdx (simsOf sim cur.emb (a :: rest))) a)
        ((a :: rest).eraseIdx (argmaxIdx (simsOf sim cur.emb (a :: rest))))

/-- The `while remaining:` loop of `build_montage_for_paths`: repeatedly
take the first-maximal-similarity entry (`torch.argmax` over `sims`),
`pop` it from `remaining` and append it, the popped entry becoming the new
`current`. -/
def greedyLoop (sim : Vec → Vec → ℚ) (cur : VidEntry) (rem : List VidEntry) :
    List VidEntry :=
  greedyLoopFuel sim rem.length cur rem

/-- The sequencer on the filtered `remaining` list: seed with the first
entry (`remaining.pop(0)`), then run the greedy loop. -/
def orderedVideos (sim : Vec → Vec → ℚ) (remaining : List VidEntry) :
    List VidEntry :=
  match remaining with
  | [] => []
  | c :: rest => c :: greedyLoop sim c rest

/-- Building the `remaining` list: each video path whose `_video_embedding`
is not `None`, paired with that embedding, in discovery order. -/
def buildRemaining (fileAt : String → MediaFile) (videos : List String) :
    List VidEntry :=
  videos.filterMap (fun v => (video_embedding (fileAt v)).map (fun e => ⟨v, e⟩))

/-- Transcription of the spec's sequencing step (§4.2, step 4): from the
most-recently-placed embedding `cur` and the remaining candidates `rem`,
the tail `out` is built by repeatedly selecting the candidate with maximum
similarity to `cur`, ties broken by earliest position in the remaining
list (first-seen wins), removing it, and recursing with it as the new
most-recently-placed entry. -/
inductive GreedySpec (sim : Vec → Vec → ℚ) :
    Vec → List VidEntry → List VidEntry → Prop where
  | nil : ∀ cur, GreedySpec sim cur [] []
  | step : ∀ (cur : Vec) (rem : List VidEntry) (i : Nat) (out : List VidEntry),
      i < rem.length →
      (∀ j, j < rem.length →
        sim cur (rem.getD j default).emb ≤ sim cur (rem.getD i default).emb) →
      (∀ j, j < i →
        sim cur (rem.getD j default).emb < sim cur (rem.getD i default).emb) →
      GreedySpec sim (rem.getD i default).emb (rem.eraseIdx i) out →
      GreedySpec sim cur rem (rem.getD i default :: out)

/-! ### Canvas normalization (`_resize_crop_9x16_video` / `_resize_crop_9x16_image`) -/

/-- A normalized clip descriptor: the clip identified by its source path,
its output dimensions, and its duration. -/
structure NormClip where
  path : String
  w : ℚ
  h : ℚ
  duration : ℚ
deriving DecidableEq

/-- Width after moviepy `resize(height=INSTAGRAM_HEIGHT)`, which scales the
width proportionally. -/
def scaledW (f : MediaFile) : ℚ := f.w * INSTAGRAM_HEIGHT / f.h

/-- `_resize_crop_9x16_video`: scale so height is `INSTAGRAM_HEIGHT`; if the
scaled width is at least `INSTAGRAM_WIDTH`, center-crop to exactly
`INSTAGRAM_WIDTH` (moviepy `crop(x_center=..., width=W)` yields width `W`);
otherwise keep the narrower width (no padding). -/
def resize_crop_9x16_video (p : String) (f : MediaFile) : NormClip :=
  if INSTAGRAM_WIDTH ≤ scaledW f then
    ⟨p, INSTAGRAM_WIDTH, INSTAGRAM_HEIGHT, f.duration⟩
  else
    ⟨p, scaledW f, INSTAGRAM_HEIGHT, f.duration⟩

/-- `_resize_crop_9x16_image`: `ImageClip(path).set_duration(3)` then the
same scale/crop policy. -/
def resize_crop_9x16_image (p : String) (f : MediaFile) : NormClip :=
  if INSTAGRAM_WIDTH ≤ scaledW f then
    ⟨p, INSTAGRAM_WIDTH, INSTAGRAM_HEIGHT, 3⟩
  else
    ⟨p, scaledW f, INSTAGRAM_HEIGHT, 3⟩

/-! ### `build_montage_for_paths` -/

inductive PipelineError
  | compositionError
deriving DecidableEq

/-- The composed output: its (job-temp-dir-relative) local path and the
ordered normalized clips concatenated into it. -/
structure Artifact where
  localPath : String
  clips : List NormClip
deriving DecidableEq

/-- The `final_clips` list of `build_montage_for_paths`: similarity-ordered
videos (those with a non-`None` embedding) normalized, followed by images
in discovery order, normalized with the 3-second synthetic duration. -/
def finalClips (sim : Vec → Vec → ℚ) (fileAt : String → MediaFile)
    (local_paths : List String) : List NormClip :=
  (orderedVideos sim
      (buildRemaining fileAt (local_paths.filter (fun p => hasExt video_exts p)))).map
    (fun v => resize_crop_9x16_video v.path (fileAt v.path))
  ++ (local_paths.filter (fun p => hasExt image_exts p)).map
    (fun p => resize_crop_9x16_image p (fileAt p))

/-- `build_montage_for_paths`: raises (`RuntimeError`, the spec's
`CompositionError`) iff no usable clip survived filtering; otherwise
writes and returns the montage file. -/
def build_montage_for_paths (sim : Vec → Vec → ℚ) (fileAt : String → MediaFile)
    (local_paths : List String) : Except PipelineError Artifact :=
  if finalClips sim fileAt local_paths = [] then .error .compositionError
  else .ok ⟨"montage_output.mp4", finalClips sim fileAt local_paths⟩

/-! ### Orchestrator layer (`main.py`) -/

/-- A `files` table row as returned by `sb_list_incoming_files`. -/
structure Row where
  id : Nat
  name : String
  filePath : String
  createdAt : String
  mimeType : String
  fileSize : Nat
deriving DecidableEq

/-- An externally visible Catalog/Storage write performed by the job
(downloads are reads of Storage; they are recorded to express "after
downloading everything" but are not writes). -/
inductive Event
  | download : String → Event
  | upload : String → Event
  | move : String → String → Event
  | update : Nat → String → Event
  | insertOut : String → String → Nat → Event
deriving DecidableEq

def Event.isDownload : Event → Bool
  | .download _ => true
  | _ => false

def Event.isUpload : Event → Bool
  | .upload _ => true
  | _ => false

def Event.isMove : Event → Bool
  | .move _ _ => true
  | _ => false

def Event.isUpdate : Event → Bool
  | .update _ _ => true
  | _ => false

def Event.isInsert : Event → Bool
  | .insertOut _ _ _ => true
  | _ => false

/-- A write to Catalog or Storage (anything but a download). -/
def Event.isWrite (e : Event) : Bool :=
  e.isUpload || e.isMove || e.isUpdate || e.isInsert

/-- Outcome of `sb_storage_move`'s internal try/except: the primary move
succeeded, or it raised and the fallback (finer-timestamp-suffixed
destination) succeeded, or both raised. -/
inductive MoveOutcome
  | primary
  | fallback
  | failed
deriving DecidableEq

/-- The errors `run_build_pipeline` can propagate out of its `try` block,
classified by the stage that raised (the spec's §7 taxonomy). -/
inductive JobError
  | discoveryError
  | downloadError
  | compositionError
  | publishError
  | moveError
  | updateError
  | insertError
deriving DecidableEq

/-- The module-global orchestrator state of `main.py`:
`IS_CREATING`, `LAST_RUN`, `STARTED_AT`. -/
structure OrchState where
  isCreating : Bool
  lastRun : Option String
  startedAt : Option String
deriving DecidableEq

/-- The external world one job run interacts with: the catalog query
result, which storage/DB calls succeed, the metadata of downloaded files,
and the wall-clock strings read at the fixed call sites. -/
structure Env where
  discoveryOk : Bool
  incoming : List Row
  downloadOk : String → Bool
  fileAt : String → MediaFile
  uploadOk : Bool
  moveRes : String → MoveOutcome
  updateOk : Nat → Bool
  insertOk : Bool
  outputSize : Nat
  ts : String
  fineTs : String
  startIso : String
  completeIso : String

/-- Python `os.path.splitext` restricted to the shapes used here
(split at the last dot). -/
def splitext (p : String) : String × String :=
  match p.data.reverse.span (fun c => c ≠ '.') with
  | (_, []) => (p, "")
  | (extRev, _ :: baseRev) => (⟨baseRev.reverse⟩, ⟨'.' :: extRev.reverse⟩)

/-- Destination of the archival move for a source path, as computed in
`run_build_pipeline`: `archive/{basename}.{ts}`. -/
def moveDest (src ts : String) : String :=
  "archive/" ++ basename src ++ "." ++ ts

/-- The fallback destination computed inside `sb_storage_move` when the
primary move raises. -/
def fallbackDest (dest fineTs : String) : String :=
  (splitext dest).1 ++ "." ++ fineTs ++ (splitext dest).2

/-- The download loop: downloads each row's bytes in order; a failure
raises immediately (`DownloadError`), leaving only the earlier downloads
performed. Returns the events and, on success, the rows (the
`local_entries`). -/
def downloadStage (ok : String → Bool) : List Row → List Event × Option (List Row)
  | [] => ([], some [])
  | r :: rs =>
    if ok r.filePath then
      match downloadStage ok rs with
      | (evs, some rest) => (Event.download r.filePath :: evs, some (r :: rest))
      | (evs, none) => (Event.download r.filePath :: evs, none)
    else ([], none)

/-- The archive loop: for each entry, move `incoming/...` to
`archive/{base}.{ts}` via `sb_storage_move` (with its internal fallback);
`archived_paths` collects the *primary* destination even when the fallback
path was used (the caller cannot see the fallback). A move where both
attempts raise aborts the stage. -/
def archiveStage (moveRes : String → MoveOutcome) (ts fineTs : String) :
    List Row → List Event × Option (List String)
  | [] => ([], some [])
  | r :: rs =>
    match moveRes r.filePath with
    | .primary =>
      match archiveStage moveRes ts fineTs rs with
      | (evs, some paths) =>
        (Event.move r.filePath (moveDest r.filePath ts) :: evs,
         some (moveDest r.filePath ts :: paths))
      | (evs, none) => (Event.move r.filePath (moveDest r.filePath ts) :: evs, none)
    | .fallback =>
      match archiveStage moveRes ts fineTs rs with
      | (evs, some paths) =>
        (Event.move r.filePath (fallbackDest (moveDest r.filePath ts) fineTs) :: evs,
         some (moveDest r.filePath ts :: paths))
      | (evs, none) =>
        (Event.move r.filePath (fallbackDest (moveDest r.filePath ts) fineTs) :: evs, none)
    | .failed => ([], none)

/-- `sb_update_file_paths`: zip rows with new paths and update each row's
`file_path`; a raising `.execute()` aborts the loop. -/
def updateStage (updOk : Nat → Bool) : List (Row × String) → List Event × Bool
  | [] => ([], true)
  | (r, newp) :: rest =>
    if updOk r.id then
      match updateStage updOk rest with
      | (evs, ok) => (Event.update r.id newp :: evs, ok)
    else ([], false)

/-- Result of one `run_build_pipeline` invocation: the post-state of the
module globals, the trace of Storage/Catalog operations in program order,
and the outcome (`.ok (some artifact)` on a publishing success, `.ok none`
for the guard/no-op early returns, `.error` for a propagated exception). -/
structure RunResult where
  state : OrchState
  trace : List Event
  outcome : Except JobError (Option Artifact)

/-- The body of `run_build_pipeline`'s `try` block, from discovery to
`LAST_RUN = now_iso()`. -/
def runBody (env : Env) (sim : Vec → Vec → ℚ) (s : OrchState) :
    OrchState × List Event × Except JobError (Option Artifact) :=
  if ¬env.discoveryOk then (s, [], .error .discoveryError)
  else if env.incoming = [] then (s, [], .ok none)
  else
    match downloadStage env.downloadOk env.incoming with
    | (dEvs, none) => (s, dEvs, .error .downloadError)
    | (dEvs, some entries) =>
      match build_montage_for_paths sim env.fileAt
          (entries.map (fun r => basename r.filePath)) with
      | .error .compositionError => (s, dEvs, .error .compositionError)
      | .ok art =>
        if ¬env.uploadOk then (s, dEvs, .error .publishError)
        else
          match archiveStage env.moveRes env.ts env.fineTs entries with
          | (aEvs, none) =>
            (s, dEvs ++ Event.upload ("outputs/montage_output_" ++ env.ts ++ ".mp4") :: aEvs,
             .error .moveError)
          | (aEvs, some archived) =>
            match updateStage env.updateOk (entries.zip archived) with
            | (uEvs, false) =>
              (s, dEvs ++ Event.upload ("outputs/montage_output_" ++ env.ts ++ ".mp4")
                    :: (aEvs ++ uEvs),
               .error .updateError)
            | (uEvs, true) =>
              if ¬env.insertOk then
                (s, dEvs ++ Event.upload ("outputs/montage_output_" ++ env.ts ++ ".mp4")
                      :: (aEvs ++ uEvs),
                 .error .insertError)
              else
                ({ s with lastRun := some env.completeIso },
                 dEvs ++ Event.upload ("outputs/montage_output_" ++ env.ts ++ ".mp4")
                   :: (aEvs ++ uEvs
                     ++ [Event.insertOut ("montage_output_" ++ env.ts ++ ".mp4")
                          ("outputs/montage_output_" ++ env.ts ++ ".mp4") env.outputSize]),
                 .ok (some art))

/-- `run_build_pipeline`: the double-checked `IS_CREATING` guard (the
check-then-set runs under `RUN_LOCK`, so it is one atomic step), then the
`try` body, then the `finally` block that unconditionally clears
`IS_CREATING`. -/
def run_build_pipeline (env : Env) (sim : Vec → Vec → ℚ) (s : OrchState) :
    RunResult :=
  if s.isCreating then ⟨s, [], .ok none⟩
  else
    match runBody env sim ⟨true, s.lastRun, some env.startIso⟩ with
    | (s', trace, outcome) => ⟨{ s' with isCreating := false }, trace, outcome⟩

/-- The `POST /api/run` handler after the optional bearer check: returns
`already_running = true` and spawns nothing when `IS_CREATING` is set;
otherwise spawns the build thread and reports `already_running = false`
(the field is absent in the JSON, i.e. falsy). The second component is
whether a worker thread was spawned. -/
structure TriggerResp where
  accepted : Bool
  alreadyRunning : Bool
deriving DecidableEq

def apiRun (s : OrchState) : TriggerResp × Bool :=
  if s.isCreating then (⟨true, true⟩, false) else (⟨true, false⟩, true)

/-- `true` iff the run outcome is a publishing success (returned an
artifact). -/
def outcomeOkSome : Except JobError (Option Artifact) → Bool
  | .ok (some _) => true
  | _ => false

/-- `true` iff the run outcome is the no-work return (guard early return or
empty discovery). -/
def outcomeOkNone : Except JobError (Option Artifact) → Bool
  | .ok none => true
  | _ => false

/-- `true` iff the run outcome is the given propagated error. -/
def outcomeErr (e : JobError) : Except JobError (Option Artifact) → Bool
  | .error e' => e' = e
  | .ok _ => false

instance : Inhabited Event := ⟨Event.download ""⟩

/-- `true` iff the trace contains a storage move whose source is `src`. -/
def hasMoveOf (tr : List Event) (src : String) : Bool :=
  tr.any fun e => match e with
    | .move s _ => s = src
    | _ => false

/-- `true` iff the trace contains a catalog `file_path` update of row `i`. -/
def hasUpdateOf (tr : List Event) (i : Nat) : Bool :=
  tr.any fun e => match e with
    | .update j _ => j = i
    | _ => false

/-- `true` iff in `tr` every event satisfying `p` occurs strictly before
every event satisfying `q`. -/
def beforeAllB (p q : Event → Bool) (tr : List Event) : Bool :=
  (List.range tr.length).all fun i => (List.range tr.length).all fun j =>
    !(p (tr.getD i default) && q (tr.getD j default)) || Nat.blt i j

/-- A trivial similarity function for concrete instantiations. -/
def sim0 : Vec → Vec → ℚ := fun _ _ => 0

/-- A fully healthy environment with no pending items. -/
def envTriv : Env :=
  ⟨true, [], fun _ => true, fun _ => ⟨0, 0, 0, none⟩, true, fun _ => .primary,
   fun _ => true, true, 0, "20250930_120000", "20250930120000000000",
   "2025-09-30T12:00:00Z", "2025-09-30T12:00:05Z"⟩

/-- One pending catalog row used by concrete instantiations. -/
def rowA : Row :=
  ⟨7, "clip", "incoming/clip.mp4", "2025-09-30T10:00:00Z", "video/mp4", 42⟩

/-- Metadata of a healthy 1080x1920 2-second video with an embedding. -/
def fileA : MediaFile := ⟨2, 1080, 1920, some [1]⟩

/-- Environment of a run in which every stage succeeds except the catalog
`file_path` update, which raises. -/
def envUpdFail : Env :=
  { envTriv with incoming := [rowA], fileAt := fun _ => fileA,
                 updateOk := fun _ => false, outputSize := 42 }

/-- Environment of a fully successful single-video run. -/
def envHappy : Env :=
  { envTriv with incoming := [rowA], fileAt := fun _ => fileA,
                 outputSize := 42 }

/-- Similarity table for the concrete sequencer run: from `[1]` the
entry `[3]` scores 2 and `[2]` scores 1; everything else scores 0. -/
def simC5 : Vec → Vec → ℚ := fun a b =>
  if a = [1] ∧ b = [3] then 2 else if a = [1] ∧ b = [2] then 1 else 0

/-- Three healthy videos with distinct embeddings. -/
def fileAtC5 : String → MediaFile := fun p =>
  if p = "a.mp4" then ⟨2, 1080, 1920, some [1]⟩
  else if p = "b.mp4" then ⟨2, 1080, 1920, some [2]⟩
  else ⟨2, 1080, 1920, some [3]⟩

def pathsC5 : List String := ["a.mp4", "b.mp4", "c.mp4"]

/-- Files for the duration-filter instantiation: a 0.3-second video that
carries a valid feature vector, and a still image. -/
def fileAtC7 : String → MediaFile := fun p =>
  if p = "short.mp4" then ⟨mkRat 3 10, 1080, 1920, some [1]⟩
  else ⟨0, 1080, 1920, none⟩

/-- A pending row whose name ends in no recognized media extension. -/
def rowTxt : Row :=
  ⟨9, "notes", "incoming/notes.txt", "2025-09-30T09:00:00Z", "text/plain", 3⟩

/-- Environment whose only pending item has an unrecognized extension. -/
def envAllTxt : Env := { envTriv with incoming := [rowTxt] }

/-- Environment with one composable video and one unrecognized-extension
item, everything healthy. -/
def envMixed : Env :=
  { envTriv with incoming := [rowA, rowTxt],
                 fileAt := fun p => if p = "clip.mp4" then fileA else ⟨0, 0, 0, none⟩,
                 outputSize := 42 }

theorem argmaxIdx_lt_length : ∀ (l : List ℚ), l ≠ [] → argmaxIdx l < l.length
  | [], h => absurd rfl h
  | [_], _ => by simp [argmaxIdx]
  | x :: y :: xs, _ => by
    simp only [argmaxIdx]
    split
    · have := argmaxIdx_lt_length (y :: xs) (by simp)
      simpa [List.length_cons] using Nat.succ_lt_succ this
    · simp

theorem getD_argmaxIdx_eq_listMax : ∀ (l : List ℚ), l ≠ [] →
    l.getD (argmaxIdx l) 0 = listMax l
  | [], h => absurd rfl h
  | [x], _ => by simp [argmaxIdx, listMax]
  | x :: y :: xs, _ => by
    simp only [argmaxIdx, listMax]
    split
    · next hlt =>
      have ih := getD_argmaxIdx_eq_listMax (y :: xs) (by simp)
      simp only [List.getD_cons_succ, ih]
      exact (max_eq_right (le_of_lt hlt)).symm
    · next hge =>
      push_neg at hge
      simp only [List.getD_cons_zero]
      exact (max_eq_left hge).symm

theorem getD_le_listMax : ∀ (l : List ℚ), ∀ j, j < l.length →
    l.getD j 0 ≤ listMax l
  | [], j, h => by simp at h
  | [x], j, h => by
    match j with
    | 0 => simp [listMax]
    | j + 1 => simp at h
  | x :: y :: xs, 0, _ => by
    simp [listMax]
  | x :: y :: xs, j + 1, h => by
    have ih := getD_le_listMax (y :: xs) j (by simpa using Nat.lt_of_succ_lt_succ h)
    simp only [List.getD_cons_succ, listMax]
    exact le_trans ih (le_max_right _ _)

theorem getD_lt_of_lt_argmaxIdx : ∀ (l : List ℚ), ∀ j, j < argmaxIdx l →
    l.getD j 0 < listMax l
  | [], j, h => by simp [argmaxIdx] at h
  | [x], j, h => by simp [argmaxIdx] at h
  | x :: y :: xs, j, h => by
    simp only [argmaxIdx] at h
    by_cases hlt : x < listMax (y :: xs)
    · rw [if_pos hlt] at h
      match j with
      | 0 =>
        simpa [listMax, max_eq_right (le_of_lt hlt)] using hlt
      | j + 1 =>
        have ih := getD_lt_of_lt_argmaxIdx (y :: xs) j (Nat.lt_of_succ_lt_succ h)
        simp only [List.getD_cons_succ, listMax, max_eq_right (le_of_lt hlt)]
        exact ih
    · rw [if_neg hlt] at h
      exact absurd h (Nat.not_lt_zero j)

theorem simsOf_length (sim : Vec → Vec → ℚ) (cur : Vec) (rem : List VidEntry) :
    (simsOf sim cur rem).length = rem.length := by
  simp [simsOf]

theorem greedyLoop_nil (sim : Vec → Vec → ℚ) (cur : VidEntry) :
    greedyLoop sim cur [] = [] := rfl

theorem argmaxIdx_simsOf_lt (sim : Vec → Vec → ℚ) (cur : Vec)
    (a : VidEntry) (rest : List VidEntry) :
    argmaxIdx (simsOf sim cur (a :: rest)) < (a :: rest).length := by
  have := argmaxIdx_lt_length (simsOf sim cur (a :: rest)) (by simp [simsOf])
  simpa [simsOf_length] using this

theorem greedyLoop_cons (sim : Vec → Vec → ℚ) (cur : VidEntry)
    (a : VidEntry) (rest : List VidEntry) :
    greedyLoop sim cur (a :: rest) =
      (a :: rest).getD (argmaxIdx (simsOf sim cur.emb (a :: rest))) a ::
        greedyLoop sim ((a :: rest).getD (argmaxIdx (simsOf sim cur.emb (a :: rest))) a)
          ((a :: rest).eraseIdx (argmaxIdx (simsOf sim cur.emb (a :: rest)))) := by
  have hi := argmaxIdx_simsOf_lt sim cur.emb a rest
  have hlen : ((a :: rest).eraseIdx (argmaxIdx (simsOf sim cur.emb (a :: rest)))).length
      = rest.length := by
    simp only [List.length_eraseIdx, hi, if_pos]
    simp
  simp only [greedyLoop, List.length_cons, greedyLoopFuel, hlen]

/-- `l` is a permutation of `l[i] :: l.eraseIdx i` for `i < l.length`. -/
theorem perm_getD_cons_eraseIdx {α : Type} (d : α) :
    ∀ (l : List α) (i : Nat), i < l.length →
      l.Perm (l.getD i d :: l.eraseIdx i)
  | [], i, h => by simp at h
  | a :: t, 0, _ => by simp
  | a :: t, i + 1, h => by
    have ih := perm_getD_cons_eraseIdx d t i (by simpa using Nat.lt_of_succ_lt_succ h)
    simp only [List.getD_cons_succ, List.eraseIdx_cons_succ]
    exact (ih.cons a).trans (List.Perm.swap _ _ _)

theorem greedyLoop_perm (sim : Vec → Vec → ℚ) :
    ∀ (n : Nat) (cur : VidEntry) (rem : List VidEntry), rem.length = n →
      (greedyLoop sim cur rem).Perm rem := by
  intro n
  induction n using Nat.strong_induction_on with
  | _ n ih =>
    intro cur rem hlen
    match rem with
    | [] => simp [greedyLoop_nil]
    | a :: rest =>
      rw [greedyLoop_cons]
      have hi : argmaxIdx (simsOf sim cur.emb (a :: rest)) < (a :: rest).length := by
        have := argmaxIdx_lt_length (simsOf sim cur.emb (a :: rest)) (by simp [simsOf])
        simpa [simsOf_length] using this
      have hlt : ((a :: rest).eraseIdx (argmaxIdx (simsOf sim cur.emb (a :: rest)))).length < n := by
        simp only [List.length_eraseIdx, hi, if_pos]
        omega
      have hperm := ih _ hlt ((a :: rest).getD (argmaxIdx (simsOf sim cur.emb (a :: rest))) a) _ rfl
      exact ((hperm.cons _).trans (perm_getD_cons_eraseIdx a (a :: rest) _ hi).symm).symm.symm

theorem orderedVideos_perm (sim : Vec → Vec → ℚ) (remaining : List VidEntry) :
    (orderedVideos sim remaining).Perm remaining := by
  match remaining with
  | [] => simp [orderedVideos]
  | c :: rest =>
    simpa [orderedVideos] using (greedyLoop_perm sim rest.length c rest rfl).cons c

theorem getD_indep {α : Type} (d₁ d₂ : α) :
    ∀ (l : List α) (i : Nat), i < l.length → l.getD i d₁ = l.getD i d₂
  | [], i, h => by simp at h
  | a :: t, 0, _ => by simp
  | a :: t, i + 1, h =>
    getD_indep d₁ d₂ t i (by simpa using Nat.lt_of_succ_lt_succ h)

theorem simsOf_getD (sim : Vec → Vec → ℚ) (cur : Vec) :
    ∀ (rem : List VidEntry) (j : Nat), j < rem.length →
      (simsOf sim cur rem).getD j 0 = sim cur (rem.getD j default).emb
  | [], j, h => by simp at h
  | a :: t, 0, _ => by simp [simsOf]
  | a :: t, j + 1, h => by
    simp only [simsOf, List.map_cons, List.getD_cons_succ]
    exact simsOf_getD sim cur t j (by simpa using Nat.lt_of_succ_lt_succ h)

theorem greedyLoop_greedySpec (sim : Vec → Vec → ℚ) :
    ∀ (n : Nat) (cur : VidEntry) (rem : List VidEntry), rem.length = n →
      GreedySpec sim cur.emb rem (greedyLoop sim cur rem) := by
  intro n
  induction n using Nat.strong_induction_on with
  | _ n ih =>
    intro cur rem hlen
    match rem with
    | [] =>
      rw [greedyLoop_nil]
      exact GreedySpec.nil cur.emb
    | a :: rest =>
      rw [greedyLoop_cons]
      have hslen : (simsOf sim cur.emb (a :: rest)).length = (a :: rest).length :=
        simsOf_length sim cur.emb (a :: rest)
      have hi : argmaxIdx (simsOf sim cur.emb (a :: rest)) < (a :: rest).length := by
        have := argmaxIdx_lt_length (simsOf sim cur.emb (a :: rest)) (by simp [simsOf])
        simpa [hslen] using this
    -- name the argmax index
      generalize hidx : argmaxIdx (simsOf sim cur.emb (a :: rest)) = i at hi ⊢
      have hgd : (a :: rest).getD i a = (a :: rest).getD i default :=
        getD_indep a default (a :: rest) i hi
      rw [hgd]
      have hmaxval : (simsOf sim cur.emb (a :: rest)).getD i 0
          = listMax (simsOf sim cur.emb (a :: rest)) := by
        rw [← hidx]
        exact getD_argmaxIdx_eq_listMax _ (by simp [simsOf])
      have hmax : ∀ j, j < (a :: rest).length →
          sim cur.emb ((a :: rest).getD j default).emb
            ≤ sim cur.emb ((a :: rest).getD i default).emb := by
        intro j hj
        rw [← simsOf_getD sim cur.emb (a :: rest) j hj,
          ← simsOf_getD sim cur.emb (a :: rest) i hi, hmaxval]
        exact getD_le_listMax _ j (by simpa [hslen] using hj)
      have hfirst : ∀ j, j < i →
          sim cur.emb ((a :: rest).getD j default).emb
            < sim cur.emb ((a :: rest).getD i default).emb := by
        intro j hj
        have hjlen : j < (a :: rest).length := lt_trans hj hi
        rw [← simsOf_getD sim cur.emb (a :: rest) j hjlen,
          ← simsOf_getD sim cur.emb (a :: rest) i hi, hmaxval]
        exact getD_lt_of_lt_argmaxIdx _ j (hidx ▸ hj)
      have hlt : ((a :: rest).eraseIdx i).length < n := by
        simp only [List.length_eraseIdx, hi, if_pos]
        omega
      have hrec := ih _ hlt ((a :: rest).getD i default) _ rfl
      exact GreedySpec.step cur.emb (a :: rest) i _ hi hmax hfirst hrec

theorem downloadStage_some (ok : String → Bool) :
    ∀ (rows entries : List Row) (evs : List Event),
      downloadStage ok rows = (evs, some entries) →
      entries = rows ∧ evs = rows.map (fun r => Event.download r.filePath) := by
  intro rows
  induction rows with
  | nil =>
    intro entries evs h
    simp only [downloadStage, Prod.mk.injEq] at h
    obtain ⟨h1, h2⟩ := h
    simp [← h1, ← (Option.some.injEq _ _).mp h2.symm]
  | cons r rs ih =>
    intro entries evs h
    simp only [downloadStage] at h
    split at h
    · split at h
      · next evs' rest heq =>
        simp only [Prod.mk.injEq, Option.some.injEq] at h
        obtain ⟨h1, h2⟩ := h
        obtain ⟨hrest, hevs⟩ := ih rest evs' heq
        subst hrest hevs
        simp [← h1, ← h2]
      · next evs' heq =>
        simp at h
    · simp at h

theorem downloadStage_all_ok (ok : String → Bool) :
    ∀ (rows : List Row), (∀ r ∈ rows, ok r.filePath = true) →
      downloadStage ok rows = (rows.map (fun r => Event.download r.filePath), some rows) := by
  intro rows
  induction rows with
  | nil => intro _; rfl
  | cons r rs ih =>
    intro hall
    have hr : ok r.filePath = true := hall r (List.mem_cons_self r rs)
    simp only [downloadStage, hr, if_pos]
    rw [ih (fun x hx => hall x (List.mem_cons_of_mem r hx))]
    simp

theorem archiveStage_some (moveRes : String → MoveOutcome) (ts fineTs : String) :
    ∀ (rows : List Row) (evs : List Event) (archived : List String),
      archiveStage moveRes ts fineTs rows = (evs, some archived) →
      archived = rows.map (fun r => moveDest r.filePath ts) ∧
      (∀ e ∈ evs, e.isMove = true) ∧
      (∀ r ∈ rows, ∃ d, Event.move r.filePath d ∈ evs) := by
  intro rows
  induction rows with
  | nil =>
    intro evs archived h
    simp only [archiveStage, Prod.mk.injEq] at h
    obtain ⟨h1, h2⟩ := h
    simp [← h1, ← (Option.some.injEq _ _).mp h2.symm]
  | cons r rs ih =>
    intro evs archived h
    simp only [archiveStage] at h
    split at h
    · split at h
      · next evs' paths heq =>
        simp only [Prod.mk.injEq, Option.some.injEq] at h
        obtain ⟨h1, h2⟩ := h
        obtain ⟨hpaths, hmoves, hmem⟩ := ih evs' paths heq
        subst hpaths
        refine ⟨by simp [← h2], ?_, ?_⟩
        · intro e he
          rw [← h1] at he
          rcases List.mem_cons.mp he with rfl | he'
          · rfl
          · exact hmoves e he'
        · intro x hx
          rcases List.mem_cons.mp hx with rfl | hx'
          · exact ⟨moveDest x.filePath ts, by rw [← h1]; exact List.mem_cons_self _ _⟩
          · obtain ⟨d, hd⟩ := hmem x hx'
            exact ⟨d, by rw [← h1]; exact List.mem_cons_of_mem _ hd⟩
      · next evs' heq => simp at h
    · split at h
      · next evs' paths heq =>
        simp only [Prod.mk.injEq, Option.some.injEq] at h
        obtain ⟨h1, h2⟩ := h
        obtain ⟨hpaths, hmoves, hmem⟩ := ih evs' paths heq
        subst hpaths
        refine ⟨by simp [← h2], ?_, ?_⟩
        · intro e he
          rw [← h1] at he
          rcases List.mem_cons.mp he with rfl | he'
          · rfl
          · exact hmoves e he'
        · intro x hx
          rcases List.mem_cons.mp hx with rfl | hx'
          · exact ⟨fallbackDest (moveDest x.filePath ts) fineTs,
              by rw [← h1]; exact List.mem_cons_self _ _⟩
          · obtain ⟨d, hd⟩ := hmem x hx'
            exact ⟨d, by rw [← h1]; exact List.mem_cons_of_mem _ hd⟩
      · next evs' heq => simp at h
    · simp at h

theorem archiveStage_all_primary (moveRes : String → MoveOutcome) (ts fineTs : String) :
    ∀ (rows : List Row), (∀ r ∈ rows, moveRes r.filePath = .primary) →
      archiveStage moveRes ts fineTs rows =
        (rows.map (fun r => Event.move r.filePath (moveDest r.filePath ts)),
         some (rows.map (fun r => moveDest r.filePath ts))) := by
  intro rows
  induction rows with
  | nil => intro _; rfl
  | cons r rs ih =>
    intro hall
    have hr := hall r (List.mem_cons_self r rs)
    simp only [archiveStage, hr]
    rw [ih (fun x hx => hall x (List.mem_cons_of_mem r hx))]
    simp

theorem updateStage_true (updOk : Nat → Bool) :
    ∀ (pairs : List (Row × String)) (evs : List Event),
      updateStage updOk pairs = (evs, true) →
      evs = pairs.map (fun pr => Event.update pr.1.id pr.2) := by
  intro pairs
  induction pairs with
  | nil =>
    intro evs h
    simp only [updateStage, Prod.mk.injEq] at h
    simp [← h.1]
  | cons pr rest ih =>
    intro evs h
    match pr with
    | (r, newp) =>
      simp only [updateStage] at h
      split at h
      · simp only [Prod.mk.injEq] at h
        obtain ⟨h1, h2⟩ := h
        have heq : updateStage updOk rest = ((updateStage updOk rest).1, true) := by
          rw [← h2]
        rw [ih (updateStage updOk rest).1 heq] at h1
        simp [← h1]
      · simp at h

theorem downloadStage_none_of_fail (ok : String → Bool) :
    ∀ (rows : List Row) (r : Row), r ∈ rows → ok r.filePath = false →
      (downloadStage ok rows).2 = none := by
  intro rows
  induction rows with
  | nil => intro r hr; simp at hr
  | cons x xs ih =>
    intro r hr hfail
    simp only [downloadStage]
    rcases List.mem_cons.mp hr with rfl | hr'
    · simp [hfail]
    · split
      · have := ih r hr' hfail
        split
        · next heq5 => rw [heq5] at this; simp at this
        · simp
      · simp

theorem runBody_ok_some (env : Env) (sim : Vec → Vec → ℚ) (s s' : OrchState)
    (tr : List Event) (art : Artifact)
    (h : runBody env sim s = (s', tr, .ok (some art))) :
    env.discoveryOk = true ∧
    env.incoming ≠ [] ∧
    (∀ r ∈ env.incoming, env.downloadOk r.filePath = true) ∧
    ∃ aEvs archived uEvs,
      archiveStage env.moveRes env.ts env.fineTs env.incoming = (aEvs, some archived) ∧
      updateStage env.updateOk (env.incoming.zip archived) = (uEvs, true) ∧
      build_montage_for_paths sim env.fileAt
        (env.incoming.map (fun r => basename r.filePath)) = .ok art ∧
      env.insertOk = true ∧
      tr = env.incoming.map (fun r => Event.download r.filePath)
        ++ Event.upload ("outputs/montage_output_" ++ env.ts ++ ".mp4")
          :: (aEvs ++ uEvs
            ++ [Event.insertOut ("montage_output_" ++ env.ts ++ ".mp4")
                 ("outputs/montage_output_" ++ env.ts ++ ".mp4") env.outputSize]) ∧
      s' = { s with lastRun := some env.completeIso } := by
  unfold runBody at h
  split at h
  · simp at h
  · next hdisc =>
    split at h
    · simp at h
    · next hinc =>
      split at h
      · simp at h
      · next dEvs entries heq =>
        split at h
        · simp at h
        · next art' heq2 =>
          split at h
          · simp at h
          · next hupl =>
            split at h
            · simp at h
            · next aEvs archived heq3 =>
              split at h
              · simp at h
              · next uEvs heq4 =>
                split at h
                · simp at h
                · next hins =>
                  simp only [Prod.mk.injEq, Except.ok.injEq, Option.some.injEq] at h
                  obtain ⟨hs', htr, hart⟩ := h
                  obtain ⟨hentries, hdEvs⟩ := downloadStage_some _ _ _ _ heq
                  subst hentries
                  push_neg at hupl hins hdisc
                  refine ⟨by simpa using hdisc, hinc, ?_, aEvs, archived, uEvs,
                    heq3, heq4, ?_, ?_, ?_, ?_⟩
                  · intro r hr
                    by_contra hnot
                    have hfail := downloadStage_none_of_fail env.downloadOk
                      env.incoming r hr ((Bool.not_eq_true _).mp hnot)
                    rw [heq] at hfail
                    simp at hfail
                  · rw [hart] at heq2; exact heq2
                  · exact (Bool.not_eq_false _).mp (by simpa using hins)
                  · rw [← htr, hdEvs]
                  · rw [← hs']

theorem runBody_state_cases (env : Env) (sim : Vec → Vec → ℚ) (s : OrchState) :
    ((runBody env sim s).1 = s ∧ outcomeOkSome (runBody env sim s).2.2 = false) ∨
    ((runBody env sim s).1 = { s with lastRun := some env.completeIso } ∧
      outcomeOkSome (runBody env sim s).2.2 = true) := by
  unfold runBody
  repeat' split
  all_goals simp [outcomeOkSome]

theorem resize_crop_9x16_video_path (p : String) (f : MediaFile) :
    (resize_crop_9x16_video p f).path = p := by
  unfold resize_crop_9x16_video
  split <;> rfl

theorem resize_crop_9x16_image_path (p : String) (f : MediaFile) :
    (resize_crop_9x16_image p f).path = p := by
  unfold resize_crop_9x16_image
  split <;> rfl

theorem suffix_comparable {α : Type} {s₁ s₂ l : List α}
    (h₁ : s₁ <:+ l) (h₂ : s₂ <:+ l) : s₁ <:+ s₂ ∨ s₂ <:+ s₁ := by
  obtain ⟨t₁, ht₁⟩ := h₁
  obtain ⟨t₂, ht₂⟩ := h₂
  have e₁ : s₁ = l.drop t₁.length := by rw [← ht₁, List.drop_left]
  have e₂ : s₂ = l.drop t₂.length := by rw [← ht₂, List.drop_left]
  rcases Nat.le_total t₂.length t₁.length with hle | hle
  · left
    have : l.drop t₁.length = (l.drop t₂.length).drop (t₁.length - t₂.length) := by
      rw [List.drop_drop]
      congr 1
      omega
    rw [e₁, e₂, this]
    exact List.drop_suffix _ _
  · right
    have : l.drop t₂.length = (l.drop t₁.length).drop (t₂.length - t₁.length) := by
      rw [List.drop_drop]
      congr 1
      omega
    rw [e₁, e₂, this]
    exact List.drop_suffix _ _

/-- A path that ends in one of the video extensions ends in none of the
image extensions: the two classifications of `build_montage_for_paths`
are mutually exclusive. -/
theorem hasExt_video_not_image (p : String)
    (hv : hasExt video_exts p = true) : hasExt image_exts p = false := by
  by_contra hcon
  rw [Bool.not_eq_false] at hcon
  obtain ⟨v, hvmem, hvsfx⟩ := List.any_eq_true.mp hv
  obtain ⟨i, himem, hisfx⟩ := List.any_eq_true.mp hcon
  have hvs : v.data <:+ pyLower p := by
    simpa [pyEndsWith] using hvsfx
  have his : i.data <:+ pyLower p := by
    simpa [pyEndsWith] using hisfx
  have hcmp := suffix_comparable hvs his
  simp only [video_exts, List.mem_cons, List.not_mem_nil, or_false] at hvmem
  simp only [image_exts, List.mem_cons, List.not_mem_nil, or_false] at himem
  rcases hvmem with rfl | rfl | rfl | rfl | rfl <;>
    rcases himem with rfl | rfl | rfl | rfl <;>
      rcases hcmp with hc | hc <;> exact absurd hc (by decide)

/-- Membership in `buildRemaining`: exactly the video paths whose
`_video_embedding` is non-`None`, carrying that embedding. -/
theorem mem_buildRemaining (fileAt : String → MediaFile) (videos : List String)
    (x : VidEntry) :
    x ∈ buildRemaining fileAt videos ↔
      x.path ∈ videos ∧ video_embedding (fileAt x.path) = some x.emb := by
  simp only [buildRemaining, List.mem_filterMap]
  constructor
  · rintro ⟨v, hv, hx⟩
    match hemb : video_embedding (fileAt v) with
    | none => rw [hemb] at hx; simp at hx
    | some e =>
      rw [hemb] at hx
      simp only [Option.map_some', Option.some.injEq] at hx
      cases hx
      exact ⟨hv, hemb⟩
  · rintro ⟨hv, hemb⟩
    exact ⟨x.path, hv, by rw [hemb]; rfl⟩

/-- Every clip in `final_clips` carries the path of one of the input
paths, classified as a video (and surviving the embedding filter) or as
an image. -/
theorem finalClips_path_classified (sim : Vec → Vec → ℚ)
    (fileAt : String → MediaFile) (paths : List String) (c : NormClip)
    (hc : c ∈ finalClips sim fileAt paths) :
    c.path ∈ paths ∧
      ((hasExt video_exts c.path = true ∧
          video_embedding (fileAt c.path) ≠ none) ∨
        hasExt image_exts c.path = true) := by
  simp only [finalClips, List.mem_append, List.mem_map] at hc
  rcases hc with ⟨v, hv, hceq⟩ | ⟨q, hq, hceq⟩
  · have hv' : v ∈ buildRemaining fileAt (paths.filter (fun p => hasExt video_exts p)) :=
      (orderedVideos_perm sim _).mem_iff.mp hv
    obtain ⟨hvin, hemb⟩ := (mem_buildRemaining _ _ _).mp hv'
    have hpath : c.path = v.path := by rw [← hceq, resize_crop_9x16_video_path]
    obtain ⟨hmem, hext⟩ := List.mem_filter.mp hvin
    rw [hpath]
    exact ⟨hmem, Or.inl ⟨hext, by rw [hemb]; simp⟩⟩
  · have hpath : c.path = q := by rw [← hceq, resize_crop_9x16_image_path]
    obtain ⟨hmem, hext⟩ := List.mem_filter.mp hq
    rw [hpath]
    exact ⟨hmem, Or.inr hext⟩

theorem mem_zip_of_mem_left {α β : Type} {l₁ : List α} {l₂ : List β}
    (hlen : l₁.length = l₂.length) {a : α} (ha : a ∈ l₁) :
    ∃ b, (a, b) ∈ l₁.zip l₂ := by
  obtain ⟨i, hi, hget⟩ := List.mem_iff_getElem.mp ha
  have hi₂ : i < l₂.length := hlen ▸ hi
  refine ⟨l₂[i], ?_⟩
  have hz : (l₁.zip l₂)[i]? = some (a, l₂[i]) := by
    rw [List.getElem?_zip_eq_some]
    exact ⟨by rw [List.getElem?_eq_getElem hi, hget], List.getElem?_eq_getElem hi₂⟩
  exact List.getElem?_mem hz

/-- C1: at most one build job runs at any instant.  While a job is running
(`IS_CREATING = true`), every concurrently issued trigger responds
`already_running = true` and spawns no worker thread, so the single running
job remains the only unit of work; and even a worker that does reach
`run_build_pipeline`'s guard in that state returns immediately, leaving the
state untouched and performing no Catalog/Storage operation at all. -/
theorem single_flight_triggers (s : OrchState) (h : s.isCreating = true)
    (n : Nat) (env : Env) (sim : Vec → Vec → ℚ) :
    ((List.replicate n (apiRun s)).all fun r => r.1.alreadyRunning && !r.2) = true ∧
    run_build_pipeline env sim s = ⟨s, [], .ok none⟩ := by
  constructor
  · simp only [List.all_eq_true, List.mem_replicate]
    rintro r ⟨-, rfl⟩
    simp [apiRun, h]
  · simp [run_build_pipeline, h]

/-- Witness for C1 at a concrete running state, three triggers, and a
concrete environment. -/
theorem single_flight_triggers_witness :
    (⟨true, none, some "2025-09-30T12:00:00Z"⟩ : OrchState).isCreating = true ∧
    (((List.replicate 3 (apiRun ⟨true, none, some "2025-09-30T12:00:00Z"⟩)).all
        fun r => r.1.alreadyRunning && !r.2) = true ∧
      run_build_pipeline envTriv sim0 ⟨true, none, some "2025-09-30T12:00:00Z"⟩
        = ⟨⟨true, none, some "2025-09-30T12:00:00Z"⟩, [], .ok none⟩) :=
  ⟨rfl, single_flight_triggers ⟨true, none, some "2025-09-30T12:00:00Z"⟩ rfl 3 envTriv sim0⟩

/-- C9: an accepted trigger that discovers zero pending items is a no-op:
the run returns without an artifact, its trace is empty (zero Storage and
zero Catalog writes), and `LAST_RUN` is unchanged. -/
theorem noop_empty_discovery (env : Env) (sim : Vec → Vec → ℚ) (s : OrchState)
    (h0 : s.isCreating = false) (h1 : env.discoveryOk = true)
    (h2 : env.incoming = []) :
    run_build_pipeline env sim s
      = ⟨⟨false, s.lastRun, some env.startIso⟩, [], .ok none⟩ := by
  simp [run_build_pipeline, runBody, h0, h1, h2]

/-- Witness for C9: concrete idle state, concrete empty-catalog
environment. -/
theorem noop_empty_discovery_witness :
    (⟨false, some "old", none⟩ : OrchState).isCreating = false ∧
    envTriv.discoveryOk = true ∧ envTriv.incoming = [] ∧
    run_build_pipeline envTriv sim0 ⟨false, some "old", none⟩
      = ⟨⟨false, some "old", some envTriv.startIso⟩, [], .ok none⟩ :=
  ⟨rfl, rfl, rfl,
    noop_empty_discovery envTriv sim0 ⟨false, some "old", none⟩ rfl rfl rfl⟩

/-- C4 (counterexample to the claim as stated): a run that completes
normally (no exception) after discovering zero pending items is a success
of the scheduled unit of work, yet it does not set `LAST_RUN` to the
completion time — `LAST_RUN` stays `none` while the completion time is
`some envTriv.completeIso`. -/
theorem completion_sets_lastRun_counterexample :
    outcomeOkNone (run_build_pipeline envTriv sim0 ⟨false, none, none⟩).outcome = true ∧
    (run_build_pipeline envTriv sim0 ⟨false, none, none⟩).state.lastRun = none ∧
    (run_build_pipeline envTriv sim0 ⟨false, none, none⟩).state.lastRun
      ≠ some envTriv.completeIso := by
  refine ⟨by decide, by decide, by decide⟩

/-- C4 (amended): on completion of the scheduled unit of work — success,
failure, or no-op — the state always returns to Idle
(`IS_CREATING = false`); `LAST_RUN` is set to the completion time exactly
on a success that published an artifact; a failure (and an empty-discovery
no-op) leaves `LAST_RUN` unchanged, and nothing in the run schedules a
retry. -/
theorem completion_resets_state (env : Env) (sim : Vec → Vec → ℚ)
    (s : OrchState) (h : s.isCreating = false) :
    (run_build_pipeline env sim s).state.isCreating = false ∧
    (outcomeOkSome (run_build_pipeline env sim s).outcome = true →
      (run_build_pipeline env sim s).state.lastRun = some env.completeIso) ∧
    (outcomeOkSome (run_build_pipeline env sim s).outcome = false →
      (run_build_pipeline env sim s).state.lastRun = s.lastRun) := by
  have hrun : run_build_pipeline env sim s
      = ⟨{ (runBody env sim ⟨true, s.lastRun, some env.startIso⟩).1 with isCreating := false },
         (runBody env sim ⟨true, s.lastRun, some env.startIso⟩).2.1,
         (runBody env sim ⟨true, s.lastRun, some env.startIso⟩).2.2⟩ := by
    simp [run_build_pipeline, h]
  rcases runBody_state_cases env sim ⟨true, s.lastRun, some env.startIso⟩ with
    ⟨hst, hout⟩ | ⟨hst, hout⟩
  · refine ⟨by rw [hrun], ?_, ?_⟩
    · intro hcon
      rw [hrun] at hcon
      simp only at hcon
      rw [hout] at hcon
      simp at hcon
    · intro _
      rw [hrun]
      simp only
      rw [hst]
  · refine ⟨by rw [hrun], ?_, ?_⟩
    · intro _
      rw [hrun]
      simp only
      rw [hst]
    · intro hcon
      rw [hrun] at hcon
      simp only at hcon
      rw [hout] at hcon
      simp at hcon

/-- Witness for C4 (amended) at a concrete failing environment (upload
refused): the state returns to Idle and `LAST_RUN` is untouched. -/
theorem completion_resets_state_witness :
    (⟨false, some "old", none⟩ : OrchState).isCreating = false ∧
    ((run_build_pipeline envTriv sim0 ⟨false, some "old", none⟩).state.isCreating = false ∧
      (outcomeOkSome (run_build_pipeline envTriv sim0 ⟨false, some "old", none⟩).outcome = true →
        (run_build_pipeline envTriv sim0 ⟨false, some "old", none⟩).state.lastRun
          = some envTriv.completeIso) ∧
      (outcomeOkSome (run_build_pipeline envTriv sim0 ⟨false, some "old", none⟩).outcome = false →
        (run_build_pipeline envTriv sim0 ⟨false, some "old", none⟩).state.lastRun
          = some "old")) :=
  ⟨rfl, completion_resets_state envTriv sim0 ⟨false, some "old", none⟩ rfl⟩

/-- C2 (counterexample to the claim as stated): when the catalog-update
stage raises after the storage moves succeeded, the run ends with the
item moved in Storage (archival for it had begun) but its catalog row not
updated — the state the claim forbids. -/
theorem item_archival_atomic_counterexample :
    outcomeErr .updateError
      (run_build_pipeline envUpdFail sim0 ⟨false, none, none⟩).outcome = true ∧
    hasMoveOf (run_build_pipeline envUpdFail sim0 ⟨false, none, none⟩).trace
      rowA.filePath = true ∧
    hasUpdateOf (run_build_pipeline envUpdFail sim0 ⟨false, none, none⟩).trace
      rowA.id = false :=
  ⟨by decide, by decide, by decide⟩

/-- Inversion of a successful run at the `run_build_pipeline` level: the
archive and update stages succeeded, the montage was built over the
downloaded entries, and the trace is: all downloads, then the publish
upload, then the archival moves, then the catalog row updates, then the
output catalog insert as the final write. -/
theorem run_ok_some_spec (env : Env) (sim : Vec → Vec → ℚ) (s : OrchState)
    (h : outcomeOkSome (run_build_pipeline env sim s).outcome = true) :
    ∃ art aEvs archived uEvs,
      archiveStage env.moveRes env.ts env.fineTs env.incoming
        = (aEvs, some archived) ∧
      updateStage env.updateOk (env.incoming.zip archived) = (uEvs, true) ∧
      build_montage_for_paths sim env.fileAt
        (env.incoming.map (fun r => basename r.filePath)) = .ok art ∧
      (run_build_pipeline env sim s).outcome = .ok (some art) ∧
      (run_build_pipeline env sim s).trace
        = env.incoming.map (fun r => Event.download r.filePath)
          ++ Event.upload ("outputs/montage_output_" ++ env.ts ++ ".mp4")
            :: (aEvs ++ uEvs
              ++ [Event.insertOut ("montage_output_" ++ env.ts ++ ".mp4")
                   ("outputs/montage_output_" ++ env.ts ++ ".mp4") env.outputSize]) := by
  by_cases hc : s.isCreating
  · rw [show run_build_pipeline env sim s = ⟨s, [], .ok none⟩ from by
      simp [run_build_pipeline, hc]] at h
    simp [outcomeOkSome] at h
  · have hrun : run_build_pipeline env sim s
        = ⟨{ (runBody env sim ⟨true, s.lastRun, some env.startIso⟩).1 with
              isCreating := false },
           (runBody env sim ⟨true, s.lastRun, some env.startIso⟩).2.1,
           (runBody env sim ⟨true, s.lastRun, some env.startIso⟩).2.2⟩ := by
      simp [run_build_pipeline, hc]
    rw [hrun] at h ⊢
    simp only at h ⊢
    cases hout : (runBody env sim ⟨true, s.lastRun, some env.startIso⟩).2.2 with
    | error e => rw [hout] at h; simp [outcomeOkSome] at h
    | ok o =>
      cases o with
      | none => rw [hout] at h; simp [outcomeOkSome] at h
      | some art =>
        have hfull : runBody env sim ⟨true, s.lastRun, some env.startIso⟩
            = ((runBody env sim ⟨true, s.lastRun, some env.startIso⟩).1,
               (runBody env sim ⟨true, s.lastRun, some env.startIso⟩).2.1,
               Except.ok (some art)) := by
          rw [← hout]
        obtain ⟨-, -, -, aEvs, archived, uEvs, harch, hupd, hbuild, -, htr, -⟩ :=
          runBody_ok_some env sim _ _ _ art hfull
        exact ⟨art, aEvs, archived, uEvs, harch, hupd, hbuild, rfl, htr⟩

/-- In every successful run, each discovered row has an archival move and
a catalog row update in the trace. -/
theorem success_row_moved_updated (env : Env) (sim : Vec → Vec → ℚ)
    (s : OrchState)
    (h : outcomeOkSome (run_build_pipeline env sim s).outcome = true) :
    ∀ r ∈ env.incoming,
      hasMoveOf (run_build_pipeline env sim s).trace r.filePath = true ∧
      hasUpdateOf (run_build_pipeline env sim s).trace r.id = true := by
  obtain ⟨art, aEvs, archived, uEvs, harch, hupd, -, -, htr⟩ :=
    run_ok_some_spec env sim s h
  intro r hr
  obtain ⟨harchived, -, hmovesMem⟩ := archiveStage_some _ _ _ _ _ _ harch
  have huEvs := updateStage_true _ _ _ hupd
  have hlen : env.incoming.length = archived.length := by
    rw [harchived, List.length_map]
  constructor
  · obtain ⟨d, hd⟩ := hmovesMem r hr
    rw [htr]
    refine List.any_eq_true.mpr ⟨Event.move r.filePath d, ?_, by simp⟩
    refine List.mem_append_right _ (List.mem_cons_of_mem _ ?_)
    exact List.mem_append_left _ (List.mem_append_left _ hd)
  · obtain ⟨d, hd⟩ := mem_zip_of_mem_left hlen hr
    rw [htr]
    refine List.any_eq_true.mpr ⟨Event.update r.id d, ?_, by simp⟩
    refine List.mem_append_right _ (List.mem_cons_of_mem _ ?_)
    refine List.mem_append_left _ (List.mem_append_right _ ?_)
    rw [huEvs]
    exact List.mem_map.mpr ⟨(r, d), hd, rfl⟩

/-- C2 (amended): in every run that completes successfully, every
downloaded item is both moved to its archive path and has its catalog
row's location updated; but the storage moves of all items precede all
catalog updates, so a failure inside the archival/update stage can leave
items moved in Storage whose rows were not updated. -/
theorem item_archival_completeness (env : Env) (sim : Vec → Vec → ℚ)
    (s : OrchState)
    (h : outcomeOkSome (run_build_pipeline env sim s).outcome = true) :
    ∀ r ∈ env.incoming,
      hasMoveOf (run_build_pipeline env sim s).trace r.filePath = true ∧
      hasUpdateOf (run_build_pipeline env sim s).trace r.id = true :=
  success_row_moved_updated env sim s h

/-- Witness for C2 (amended) on a concrete fully successful run. -/
theorem item_archival_completeness_witness :
    outcomeOkSome (run_build_pipeline envHappy sim0 ⟨false, none, none⟩).outcome = true ∧
    (hasMoveOf (run_build_pipeline envHappy sim0 ⟨false, none, none⟩).trace
        rowA.filePath = true ∧
      hasUpdateOf (run_build_pipeline envHappy sim0 ⟨false, none, none⟩).trace
        rowA.id = true) :=
  ⟨by decide,
   item_archival_completeness envHappy sim0 ⟨false, none, none⟩ (by decide) rowA
     (by decide)⟩

/-- C3 (counterexample to the claim as stated): in a concrete fully
successful run, the catalog insert of the output record does not precede
the archival moves and row updates of the inputs — it is the last write of
the job, after all of them. -/
theorem publish_before_archive_counterexample :
    outcomeOkSome (run_build_pipeline envHappy sim0 ⟨false, none, none⟩).outcome = true ∧
    beforeAllB Event.isInsert Event.isMove
      (run_build_pipeline envHappy sim0 ⟨false, none, none⟩).trace = false ∧
    beforeAllB Event.isInsert Event.isUpdate
      (run_build_pipeline envHappy sim0 ⟨false, none, none⟩).trace = false :=
  ⟨by decide, by decide, by decide⟩

/-- C3 (amended): in every successful run the Storage upload of the output
artifact precedes every archival move and every catalog row update, but
the Catalog record for the output is inserted only after all inputs have
been archived and their rows updated — it is the final write of the job. -/
theorem publish_upload_then_archive_then_insert (env : Env)
    (sim : Vec → Vec → ℚ) (s : OrchState)
    (h : outcomeOkSome (run_build_pipeline env sim s).outcome = true) :
    ∃ aEvs uEvs,
      (run_build_pipeline env sim s).trace
        = env.incoming.map (fun r => Event.download r.filePath)
          ++ Event.upload ("outputs/montage_output_" ++ env.ts ++ ".mp4")
            :: (aEvs ++ uEvs
              ++ [Event.insertOut ("montage_output_" ++ env.ts ++ ".mp4")
                   ("outputs/montage_output_" ++ env.ts ++ ".mp4") env.outputSize]) ∧
      (∀ e ∈ aEvs, e.isMove = true) ∧
      (∀ e ∈ uEvs, e.isUpdate = true) := by
  obtain ⟨art, aEvs, archived, uEvs, harch, hupd, -, -, htr⟩ :=
    run_ok_some_spec env sim s h
  obtain ⟨-, hmovesAll, -⟩ := archiveStage_some _ _ _ _ _ _ harch
  have huEvs := updateStage_true _ _ _ hupd
  refine ⟨aEvs, uEvs, htr, hmovesAll, ?_⟩
  intro e he
  rw [huEvs] at he
  obtain ⟨pr, -, hpr⟩ := List.mem_map.mp he
  rw [← hpr]
  rfl

/-- Witness for C3 (amended) on the concrete fully successful run. -/
theorem publish_upload_then_archive_then_insert_witness :
    outcomeOkSome (run_build_pipeline envHappy sim0 ⟨false, none, none⟩).outcome = true ∧
    (∃ aEvs uEvs,
      (run_build_pipeline envHappy sim0 ⟨false, none, none⟩).trace
        = envHappy.incoming.map (fun r => Event.download r.filePath)
          ++ Event.upload ("outputs/montage_output_" ++ envHappy.ts ++ ".mp4")
            :: (aEvs ++ uEvs
              ++ [Event.insertOut ("montage_output_" ++ envHappy.ts ++ ".mp4")
                   ("outputs/montage_output_" ++ envHappy.ts ++ ".mp4")
                   envHappy.outputSize]) ∧
      (∀ e ∈ aEvs, e.isMove = true) ∧
      (∀ e ∈ uEvs, e.isUpdate = true)) :=
  ⟨by decide,
   publish_upload_then_archive_then_insert envHappy sim0 ⟨false, none, none⟩
     (by decide)⟩

/-- C5: the sequencer's order is a greedy nearest-neighbour tour.  Its
output is a permutation of exactly the video entries that carry a feature
vector, it is seeded with the first vector-bearing entry in discovery
order, and each subsequent entry is the not-yet-placed one of maximum
similarity to the most recently placed entry, ties broken by the earliest
position in the remaining list (`GreedySpec`, transcribed from the spec's
step 4).  Determinism for fixed input order and vectors is inherent: the
embedding is a pure function of `sim`, `fileAt` and `videos`. -/
theorem sequencer_greedy_tour (sim : Vec → Vec → ℚ)
    (fileAt : String → MediaFile) (videos : List String) :
    (orderedVideos sim (buildRemaining fileAt videos)).Perm
      (buildRemaining fileAt videos) ∧
    (∀ x, x ∈ orderedVideos sim (buildRemaining fileAt videos) ↔
      (x.path ∈ videos ∧ video_embedding (fileAt x.path) = some x.emb)) ∧
    (buildRemaining fileAt videos = [] →
      orderedVideos sim (buildRemaining fileAt videos) = []) ∧
    (∀ c rest, buildRemaining fileAt videos = c :: rest →
      orderedVideos sim (buildRemaining fileAt videos)
          = c :: greedyLoop sim c rest ∧
        GreedySpec sim c.emb rest (greedyLoop sim c rest)) := by
  refine ⟨orderedVideos_perm sim _, ?_, ?_, ?_⟩
  · intro x
    rw [(orderedVideos_perm sim _).mem_iff]
    exact mem_buildRemaining fileAt videos x
  · intro hnil
    rw [hnil]
    rfl
  · intro c rest hrem
    rw [hrem]
    exact ⟨rfl, greedyLoop_greedySpec sim rest.length c rest rfl⟩

/-- Witness for C5: three videos with embeddings `[1]`, `[2]`, `[3]`; from
the seed `a.mp4` the greedy step picks `c.mp4` (similarity 2 beats 1),
then `b.mp4` — and the output is a permutation of the filtered input. -/
theorem sequencer_greedy_tour_witness :
    orderedVideos simC5 (buildRemaining fileAtC5 pathsC5)
      = [⟨"a.mp4", [1]⟩, ⟨"c.mp4", [3]⟩, ⟨"b.mp4", [2]⟩] ∧
    (orderedVideos simC5 (buildRemaining fileAtC5 pathsC5)).Perm
      (buildRemaining fileAtC5 pathsC5) :=
  ⟨by decide, (sequencer_greedy_tour simC5 fileAtC5 pathsC5).1⟩

/-- C6: canvas normalization scales every clip so its output height is
exactly `INSTAGRAM_HEIGHT = 1920` (the scaled width being
`w * 1920 / h`); when the scaled width is at least
`INSTAGRAM_WIDTH = 1080` it center-crops to exactly 1080 wide, and when it
is below 1080 the output keeps the narrower scaled width with no padding.
Still images get the fixed 3-second synthetic duration and then the same
scale/crop policy; videos keep their natural duration. -/
theorem canvas_normalization (p : String) (f : MediaFile) :
    (resize_crop_9x16_video p f).h = INSTAGRAM_HEIGHT ∧
    (INSTAGRAM_WIDTH ≤ scaledW f →
      (resize_crop_9x16_video p f).w = INSTAGRAM_WIDTH) ∧
    (scaledW f < INSTAGRAM_WIDTH →
      (resize_crop_9x16_video p f).w = scaledW f ∧
      (resize_crop_9x16_video p f).w < INSTAGRAM_WIDTH) ∧
    (resize_crop_9x16_video p f).duration = f.duration ∧
    (resize_crop_9x16_image p f).duration = 3 ∧
    (resize_crop_9x16_image p f).w = (resize_crop_9x16_video p f).w ∧
    (resize_crop_9x16_image p f).h = (resize_crop_9x16_video p f).h := by
  unfold resize_crop_9x16_video resize_crop_9x16_image
  by_cases hc : INSTAGRAM_WIDTH ≤ scaledW f
  · rw [if_pos hc, if_pos hc]
    exact ⟨rfl, fun _ => rfl, fun hlt => absurd hc (not_le.mpr hlt), rfl, rfl, rfl, rfl⟩
  · rw [if_neg hc, if_neg hc]
    exact ⟨rfl, fun hle => absurd hle hc, fun hlt => ⟨rfl, hlt⟩, rfl, rfl, rfl, rfl⟩

/-- Witness for C6: a 1920x1080 landscape source is cropped to exactly
1080 wide; a 540x1920 narrow source keeps width 540 < 1080; a still image
gets duration 3. -/
theorem canvas_normalization_witness :
    (INSTAGRAM_WIDTH ≤ scaledW ⟨2, 1920, 1080, none⟩ ∧
      (resize_crop_9x16_video "wide.mp4" ⟨2, 1920, 1080, none⟩).w
        = INSTAGRAM_WIDTH) ∧
    (scaledW ⟨2, 540, 1920, none⟩ < INSTAGRAM_WIDTH ∧
      (resize_crop_9x16_video "narrow.mp4" ⟨2, 540, 1920, none⟩).w
        < INSTAGRAM_WIDTH) ∧
    (resize_crop_9x16_image "img.jpg" ⟨0, 1920, 1080, none⟩).duration = 3 := by
  have hwide : INSTAGRAM_WIDTH ≤ scaledW ⟨2, 1920, 1080, none⟩ := by
    norm_num [scaledW, INSTAGRAM_WIDTH, INSTAGRAM_HEIGHT]
  have hnarrow : scaledW ⟨2, 540, 1920, none⟩ < INSTAGRAM_WIDTH := by
    norm_num [scaledW, INSTAGRAM_WIDTH, INSTAGRAM_HEIGHT]
  exact ⟨⟨hwide, (canvas_normalization "wide.mp4" _).2.1 hwide⟩,
    ⟨hnarrow, ((canvas_normalization "narrow.mp4" _).2.2.1 hnarrow).2⟩,
    (canvas_normalization "img.jpg" _).2.2.2.2.1⟩

/-- C7: a video whose duration is below `MIN_CLIP_DURATION = 0.5` seconds
is excluded from the sequencer's output and from every clip of the
composed artifact, regardless of its (possibly valid) feature vector:
`_video_embedding` returns `None` for it before the embedding oracle is
consulted. -/
theorem short_video_excluded (sim : Vec → Vec → ℚ)
    (fileAt : String → MediaFile) (paths : List String) (p : String)
    (hv : hasExt video_exts p = true)
    (hd : (fileAt p).duration < MIN_CLIP_DURATION) :
    ((orderedVideos sim (buildRemaining fileAt
        (paths.filter (fun q => hasExt video_exts q)))).all
      (fun v => v.path ≠ p)) = true ∧
    ((finalClips sim fileAt paths).all (fun c => c.path ≠ p)) = true ∧
    (∀ art, build_montage_for_paths sim fileAt paths = .ok art →
      (art.clips.all (fun c => c.path ≠ p)) = true) := by
  have hemb : video_embedding (fileAt p) = none := by
    unfold video_embedding
    rw [if_pos hd]
  have h1 : ((orderedVideos sim (buildRemaining fileAt
      (paths.filter (fun q => hasExt video_exts q)))).all
        (fun v => v.path ≠ p)) = true := by
    rw [List.all_eq_true]
    intro v hvmem
    have := (mem_buildRemaining fileAt _ v).mp
      ((orderedVideos_perm sim _).mem_iff.mp hvmem)
    by_contra hcon
    simp only [decide_eq_true_eq] at hcon
    push_neg at hcon
    rw [hcon] at this
    rw [hemb] at this
    exact Option.noConfusion this.2
  have h2 : ((finalClips sim fileAt paths).all (fun c => c.path ≠ p)) = true := by
    rw [List.all_eq_true]
    intro c hcmem
    obtain ⟨-, hclass⟩ := finalClips_path_classified sim fileAt paths c hcmem
    by_contra hcon
    simp only [decide_eq_true_eq] at hcon
    push_neg at hcon
    rw [hcon] at hclass
    rcases hclass with ⟨-, hne⟩ | himg
    · exact hne hemb
    · rw [hasExt_video_not_image p hv] at himg
      exact Bool.noConfusion himg
  refine ⟨h1, h2, ?_⟩
  intro art hart
  unfold build_montage_for_paths at hart
  split at hart
  · exact Except.noConfusion hart
  · simp only [Except.ok.injEq] at hart
    rw [← hart]
    exact h2

/-- Witness for C7: a 0.3-second video with a valid vector next to a
still image; it appears neither in the sequencer output nor in any
composed clip. -/
theorem short_video_excluded_witness :
    hasExt video_exts "short.mp4" = true ∧
    (fileAtC7 "short.mp4").duration < MIN_CLIP_DURATION ∧
    (((orderedVideos sim0 (buildRemaining fileAtC7
        (["short.mp4", "x.jpg"].filter (fun q => hasExt video_exts q)))).all
      (fun v => v.path ≠ "short.mp4")) = true ∧
    ((finalClips sim0 fileAtC7 ["short.mp4", "x.jpg"]).all
      (fun c => c.path ≠ "short.mp4")) = true ∧
    (∀ art, build_montage_for_paths sim0 fileAtC7 ["short.mp4", "x.jpg"] = .ok art →
      (art.clips.all (fun c => c.path ≠ "short.mp4")) = true)) :=
  ⟨by decide, by decide,
   short_video_excluded sim0 fileAtC7 ["short.mp4", "x.jpg"] "short.mp4"
     (by decide) (by decide)⟩

/-- When no clip survives filtering, the compositor raises, the job aborts
after the downloads, and the run performs no Catalog/Storage write. -/
theorem run_aborts_on_empty_clips (env : Env) (sim : Vec → Vec → ℚ)
    (s : OrchState) (h0 : s.isCreating = false)
    (h1 : env.discoveryOk = true) (h2 : env.incoming ≠ [])
    (h3 : ∀ r ∈ env.incoming, env.downloadOk r.filePath = true)
    (h4 : finalClips sim env.fileAt
      (env.incoming.map (fun r => basename r.filePath)) = []) :
    build_montage_for_paths sim env.fileAt
      (env.incoming.map (fun r => basename r.filePath))
        = .error .compositionError ∧
    (run_build_pipeline env sim s).outcome = .error .compositionError ∧
    (run_build_pipeline env sim s).trace
      = env.incoming.map (fun r => Event.download r.filePath) ∧
    ((run_build_pipeline env sim s).trace.all (fun e => !e.isWrite)) = true ∧
    (run_build_pipeline env sim s).state = ⟨false, s.lastRun, some env.startIso⟩ := by
  have hdl := downloadStage_all_ok env.downloadOk env.incoming h3
  have hbuild : build_montage_for_paths sim env.fileAt
      (env.incoming.map (fun r => basename r.filePath))
        = .error .compositionError := by
    unfold build_montage_for_paths
    rw [if_pos h4]
  have hrun : run_build_pipeline env sim s
      = ⟨⟨false, s.lastRun, some env.startIso⟩,
         env.incoming.map (fun r => Event.download r.filePath),
         .error .compositionError⟩ := by
    unfold run_build_pipeline
    rw [if_neg (by simp [h0])]
    unfold runBody
    rw [if_neg (by simp [h1]), if_neg h2]
    simp only [hdl, hbuild]
  refine ⟨hbuild, by rw [hrun], by rw [hrun], ?_, by rw [hrun]⟩
  rw [hrun]
  simp only [List.all_eq_true, List.mem_map]
  rintro e ⟨r, -, rfl⟩
  rfl

/-- C8: if the list of composable clips is empty, the compositor raises
`CompositionError` (`RuntimeError` in the code) and the job aborts after
the downloads but before publish and archival: the trace holds only
downloads — zero Catalog/Storage writes — and the state returns to Idle. -/
theorem composition_error_aborts (env : Env) (sim : Vec → Vec → ℚ)
    (s : OrchState) (h0 : s.isCreating = false)
    (h1 : env.discoveryOk = true) (h2 : env.incoming ≠ [])
    (h3 : ∀ r ∈ env.incoming, env.downloadOk r.filePath = true)
    (h4 : finalClips sim env.fileAt
      (env.incoming.map (fun r => basename r.filePath)) = []) :
    build_montage_for_paths sim env.fileAt
      (env.incoming.map (fun r => basename r.filePath))
        = .error .compositionError ∧
    (run_build_pipeline env sim s).outcome = .error .compositionError ∧
    (run_build_pipeline env sim s).trace
      = env.incoming.map (fun r => Event.download r.filePath) ∧
    ((run_build_pipeline env sim s).trace.all (fun e => !e.isWrite)) = true ∧
    (run_build_pipeline env sim s).state = ⟨false, s.lastRun, some env.startIso⟩ :=
  run_aborts_on_empty_clips env sim s h0 h1 h2 h3 h4

/-- Witness for C8: one pending item, `incoming/notes.txt`, which matches
no extension, so no clip survives and the concrete run aborts with only
its download in the trace. -/
theorem composition_error_aborts_witness :
    ((⟨false, some "old", none⟩ : OrchState).isCreating = false ∧
      envAllTxt.discoveryOk = true ∧ envAllTxt.incoming ≠ [] ∧
      (∀ r ∈ envAllTxt.incoming, envAllTxt.downloadOk r.filePath = true) ∧
      finalClips sim0 envAllTxt.fileAt
        (envAllTxt.incoming.map (fun r => basename r.filePath)) = []) ∧
    (build_montage_for_paths sim0 envAllTxt.fileAt
        (envAllTxt.incoming.map (fun r => basename r.filePath))
          = .error .compositionError ∧
      (run_build_pipeline envAllTxt sim0 ⟨false, some "old", none⟩).outcome
        = .error .compositionError ∧
      (run_build_pipeline envAllTxt sim0 ⟨false, some "old", none⟩).trace
        = envAllTxt.incoming.map (fun r => Event.download r.filePath) ∧
      ((run_build_pipeline envAllTxt sim0 ⟨false, some "old", none⟩).trace.all
        (fun e => !e.isWrite)) = true ∧
      (run_build_pipeline envAllTxt sim0 ⟨false, some "old", none⟩).state
        = ⟨false, some "old", some envAllTxt.startIso⟩) :=
  ⟨⟨rfl, rfl, by decide, by decide, by decide⟩,
   composition_error_aborts envAllTxt sim0 ⟨false, some "old", none⟩ rfl rfl
     (by decide) (by decide) (by decide)⟩

/-- A successful `build_montage_for_paths` returns exactly the
`final_clips` list. -/
theorem build_montage_ok_clips (sim : Vec → Vec → ℚ)
    (fileAt : String → MediaFile) (paths : List String) (art : Artifact)
    (h : build_montage_for_paths sim fileAt paths = .ok art) :
    art.clips = finalClips sim fileAt paths := by
  unfold build_montage_for_paths at h
  split at h
  · exact Except.noConfusion h
  · simp only [Except.ok.injEq] at h
    rw [← h]

/-- C10: classification is by filename extension.  (a) In a successful
run, a downloaded item whose basename matches none of the
video/image extensions is excluded from every composed clip yet is still
archived and has its catalog row updated like a used item.  (b) If every
pending item has an unrecognized extension, the job downloads everything
and then fails with the empty-composition error, performing no write. -/
theorem unrecognized_extension_handling (env : Env) (sim : Vec → Vec → ℚ)
    (s : OrchState) :
    (∀ r ∈ env.incoming,
      hasExt video_exts (basename r.filePath) = false →
      hasExt image_exts (basename r.filePath) = false →
      outcomeOkSome (run_build_pipeline env sim s).outcome = true →
      hasMoveOf (run_build_pipeline env sim s).trace r.filePath = true ∧
      hasUpdateOf (run_build_pipeline env sim s).trace r.id = true ∧
      (∀ art, (run_build_pipeline env sim s).outcome = .ok (some art) →
        (art.clips.all (fun c => c.path ≠ basename r.filePath)) = true)) ∧
    (s.isCreating = false → env.discoveryOk = true → env.incoming ≠ [] →
      (∀ r ∈ env.incoming, env.downloadOk r.filePath = true) →
      (∀ r ∈ env.incoming,
        hasExt video_exts (basename r.filePath) = false ∧
        hasExt image_exts (basename r.filePath) = false) →
      (run_build_pipeline env sim s).outcome = .error .compositionError ∧
      (run_build_pipeline env sim s).trace
        = env.incoming.map (fun r => Event.download r.filePath)) := by
  constructor
  · intro r hr hv hi hsucc
    obtain ⟨hmv, hup⟩ := success_row_moved_updated env sim s hsucc r hr
    refine ⟨hmv, hup, ?_⟩
    intro art hart
    obtain ⟨art₀, -, -, -, -, -, hbuild, hout, -⟩ := run_ok_some_spec env sim s hsucc
    rw [hout] at hart
    simp only [Except.ok.injEq, Option.some.injEq] at hart
    subst hart
    rw [build_montage_ok_clips _ _ _ _ hbuild, List.all_eq_true]
    intro c hcmem
    obtain ⟨-, hclass⟩ := finalClips_path_classified sim env.fileAt _ c hcmem
    by_contra hcon
    simp only [decide_eq_true_eq] at hcon
    push_neg at hcon
    rw [hcon] at hclass
    rcases hclass with ⟨hvext, -⟩ | himg
    · rw [hv] at hvext; exact Bool.noConfusion hvext
    · rw [hi] at himg; exact Bool.noConfusion himg
  · intro h0 h1 h2 h3 hall
    have h4 : finalClips sim env.fileAt
        (env.incoming.map (fun r => basename r.filePath)) = [] := by
      have hvf : (env.incoming.map (fun r => basename r.filePath)).filter
          (fun p => hasExt video_exts p) = [] := by
        rw [List.filter_eq_nil_iff]
        rintro q hq
        obtain ⟨r, hr, rfl⟩ := List.mem_map.mp hq
        simp [(hall r hr).1]
      have hif : (env.incoming.map (fun r => basename r.filePath)).filter
          (fun p => hasExt image_exts p) = [] := by
        rw [List.filter_eq_nil_iff]
        rintro q hq
        obtain ⟨r, hr, rfl⟩ := List.mem_map.mp hq
        simp [(hall r hr).2]
      unfold finalClips
      rw [hvf, hif]
      rfl
    obtain ⟨-, hout, htr, -, -⟩ := run_aborts_on_empty_clips env sim s h0 h1 h2 h3 h4
    exact ⟨hout, htr⟩

/-- Witness for C10: part (a) on a successful mixed run (one video plus
`notes.txt`), part (b) on the all-unrecognized environment. -/
theorem unrecognized_extension_handling_witness :
    (rowTxt ∈ envMixed.incoming ∧
      hasExt video_exts (basename rowTxt.filePath) = false ∧
      hasExt image_exts (basename rowTxt.filePath) = false ∧
      outcomeOkSome (run_build_pipeline envMixed sim0 ⟨false, none, none⟩).outcome
        = true ∧
      (hasMoveOf (run_build_pipeline envMixed sim0 ⟨false, none, none⟩).trace
          rowTxt.filePath = true ∧
        hasUpdateOf (run_build_pipeline envMixed sim0 ⟨false, none, none⟩).trace
          rowTxt.id = true ∧
        (∀ art, (run_build_pipeline envMixed sim0 ⟨false, none, none⟩).outcome
            = .ok (some art) →
          (art.clips.all (fun c => c.path ≠ basename rowTxt.filePath)) = true))) ∧
    ((run_build_pipeline envAllTxt sim0 ⟨false, none, none⟩).outcome
        = .error .compositionError ∧
      (run_build_pipeline envAllTxt sim0 ⟨false, none, none⟩).trace
        = envAllTxt.incoming.map (fun r => Event.download r.filePath)) :=
  ⟨⟨by decide, by decide, by decide, by decide,
    (unrecognized_extension_handling envMixed sim0 ⟨false, none, none⟩).1 rowTxt
      (by decide) (by decide) (by decide) (by decide)⟩,
   (unrecognized_extension_handling envAllTxt sim0 ⟨false, none, none⟩).2 rfl rfl
     (by decide) (by decide) (by decide)⟩

end Portal
